import Mathlib

/-!
Verification development for the lsp-word completion server core
(src/main.rs): tokenizer, document store, completion engine, and the
message-dispatch loop, embedded shallowly as executable Lean functions.
-/

namespace LspWord

/-- Character class of the first regex position `[A-Za-z_]`:
ASCII letter or underscore. -/
def isWordStart (c : Char) : Bool :=
  (65 ≤ c.toNat && c.toNat ≤ 90) || (97 ≤ c.toNat && c.toNat ≤ 122) || c == '_'

/-- Character class of the continuation regex position `[A-Za-z0-9_]`:
ASCII letter, ASCII digit, or underscore. -/
def isWordChar (c : Char) : Bool :=
  isWordStart c || (48 ≤ c.toNat && c.toNat ≤ 57)

/-- Greedy run of word characters: the maximal prefix of word characters
together with the remaining suffix (models the greedy `+` of the regex). -/
def takeWord : List Char → List Char × List Char
  | [] => ([], [])
  | c :: rest =>
    if isWordChar c then
      (c :: (takeWord rest).1, (takeWord rest).2)
    else ([], c :: rest)

/-- The token extraction of `load_all_words`: all matches of the regex
`[A-Za-z_][A-Za-z0-9_]+` found left to right (leftmost match, greedy run),
as `Regex::find_iter` produces them.  A match needs a word-start character
followed by at least one word character; a lone word-start character with
no valid continuation is skipped. -/
def findTokens : List Char → List (List Char)
  | [] => []
  | [_] => []
  | c :: d :: rest =>
    if isWordStart c && isWordChar d then
      (c :: (takeWord (d :: rest)).1) :: findTokens (takeWord (d :: rest)).2
    else
      findTokens (d :: rest)
termination_by l => l.length
decreasing_by
  · have h : ∀ l : List Char, (takeWord l).2.length ≤ l.length := by
      intro l
      induction l with
      | nil => simp [takeWord]
      | cons a tl ih =>
        by_cases ha : isWordChar a = true
        · simp only [takeWord, ha, if_true]
          simpa using Nat.le_succ_of_le ih
        · simp [takeWord, ha]
    have h2 := h (d :: rest)
    simp only [List.length_cons] at h2 ⊢
    omega
  · simp

/-- Document identity: the `Uri` key of the document map, an opaque
comparable string derived from the resource locator. -/
abbrev Uri := String

/-- The document store `HashMap<Uri, String>`: modelled as an association
list with at most one entry per key (text as a character list). -/
abbrev Store := List (Uri × List Char)

/-- `HashMap::get`: the text currently stored for `u`, if any. -/
def storeGet (docs : Store) (u : Uri) : Option (List Char) :=
  (docs.find? (fun p => p.1 == u)).map Prod.snd

/-- `HashMap::insert`: replace (or create) the record for `u` with `t`. -/
def storeInsert (docs : Store) (u : Uri) (t : List Char) : Store :=
  (u, t) :: docs.filter (fun p => p.1 != u)

/-- Ways a message handler can abort the dispatch loop: a serde parameter
parse failure propagated with `?`, the `expect` panic of `load_all_words`
on a missing document, and the out-of-bounds panic of
`content_changes[0]` on an empty change list. -/
inductive ServeError
  | parseFailure
  | docNotFound
  | indexOutOfBounds
deriving DecidableEq

/-- `load_all_words`: looks the uri up in the store — `docs.get(&uri)
.expect("Document not found")` panics when absent — and collects the
distinct regex matches of the content into a set (modelled as the
deduplicated match list). -/
def load_all_words (uri : Uri) (docs : Store) : Except ServeError (List (List Char)) :=
  match storeGet docs uri with
  | none => .error .docNotFound
  | some content => .ok (findTokens content).dedup

/-- Inbound message parameter payloads, as the shapes serde can be asked
to deserialize them into.  `empty` stands for a null/absent payload and
`malformed` for any payload matching none of the expected shapes. -/
inductive RawParams
  | completionParams (uri : Uri) (line : Nat) (character : Nat)
  | didOpenParams (uri : Uri) (text : List Char)
  | didChangeParams (uri : Uri) (contentChanges : List (List Char))
  | empty
  | malformed
deriving DecidableEq

/-- `serde_json::from_value::<CompletionParams>`: succeeds exactly when
the payload has the completion-request shape (document uri plus cursor
position). -/
def parseCompletionParams : RawParams → Option (Uri × Nat × Nat)
  | .completionParams u l c => some (u, l, c)
  | _ => none

/-- `serde_json::from_value::<DidOpenTextDocumentParams>`: succeeds
exactly when the payload has the document-open shape (uri plus full
text). -/
def parseDidOpenParams : RawParams → Option (Uri × List Char)
  | .didOpenParams u t => some (u, t)
  | _ => none

/-- `serde_json::from_value::<DidChangeTextDocumentParams>`: succeeds
exactly when the payload has the document-change shape (uri plus the
content-change list). -/
def parseDidChangeParams : RawParams → Option (Uri × List (List Char))
  | .didChangeParams u cs => some (u, cs)
  | _ => none

/-- Inbound protocol messages as `serve` receives them from the
connection: requests (with id, method, params), notifications (method,
params), and responses (ignored by the loop's catch-all arm). -/
inductive InMessage
  | request (id : Nat) (method : String) (params : RawParams)
  | notif (method : String) (params : RawParams)
  | responseMsg
deriving DecidableEq

/-- Outbound messages `serve` sends: a completion response carrying the
candidate labels under the originating request id, and the shutdown
acknowledgment sent by `connection.handle_shutdown`. -/
inductive OutMessage
  | completionResponse (id : Nat) (labels : List (List Char))
  | shutdownAck (id : Nat)
deriving DecidableEq

/-- `create_completion_response`: parse the `CompletionParams` (failure
propagates with `?`), call `load_all_words` on the uri — the cursor
position is parsed but never used — and wrap each word as a completion
item label in a response tagged with the request id. -/
def create_completion_response (id : Nat) (params : RawParams) (docs : Store) :
    Except ServeError OutMessage :=
  match parseCompletionParams params with
  | none => .error .parseFailure
  | some (u, _l, _c) =>
    match load_all_words u docs with
    | .error e => .error e
    | .ok words => .ok (.completionResponse id words)

/-- One iteration of the `serve` match: handle a single inbound message,
returning the updated store and the messages sent, or the error/panic
that aborts the loop.  Mirrors src/main.rs lines 69-102 arm by arm. -/
def handleMessage (docs : Store) : InMessage → Except ServeError (Store × List OutMessage)
  | .request id method params =>
    if method == "shutdown" then
      .ok (docs, [.shutdownAck id])
    else if method == "textDocument/completion" then
      match create_completion_response id params docs with
      | .error e => .error e
      | .ok out => .ok (docs, [out])
    else
      .ok (docs, [])
  | .notif method params =>
    if method == "exit" then
      .ok (docs, [])
    else if method == "textDocument/didChange" then
      match parseDidChangeParams params with
      | none => .error .parseFailure
      | some (u, changes) =>
        match changes with
        | [] => .error .indexOutOfBounds
        | c :: _ => .ok (storeInsert docs u c, [])
    else if method == "textDocument/didOpen" then
      match parseDidOpenParams params with
      | none => .error .parseFailure
      | some (u, text) => .ok (storeInsert docs u text, [])
    else
      .ok (docs, [])
  | .responseMsg => .ok (docs, [])

/-- The dispatch loop of `serve`: fold `handleMessage` over the inbound
message stream in arrival order, starting from the given store; an error
from a handler aborts the loop, leaving the remaining messages
unprocessed.  Returns the final store and all messages sent. -/
def serve (docs : Store) : List InMessage → Except ServeError (Store × List OutMessage)
  | [] => .ok (docs, [])
  | m :: rest =>
    match handleMessage docs m with
    | .error e => .error e
    | .ok (d2, outs) =>
      match serve d2 rest with
      | .error e => .error e
      | .ok (df, outsRest) => .ok (df, outs ++ outsRest)

/-- Whether a message is one of the two store-mutating notifications
(document open / document change). -/
def isDocSync : InMessage → Bool
  | .notif method _ =>
    method == "textDocument/didOpen" || method == "textDocument/didChange"
  | _ => false

/-- A sequence of store upserts applied in order (each one a
`docs.insert(uri, text)` as performed by the open/change arms). -/
def applyUpserts (docs : Store) : List (Uri × List Char) → Store
  | [] => docs
  | (u, t) :: rest => applyUpserts (storeInsert docs u t) rest

/-- The shape every regex match has: length at least two, a word-start
first character, and only word characters throughout. -/
def Shaped (t : List Char) : Prop :=
  2 ≤ t.length ∧ isWordStart t.headI = true ∧ ∀ c ∈ t, isWordChar c = true

/-- Space-joined concatenation of a token list. -/
def spaceJoin : List (List Char) → List Char
  | [] => []
  | [t] => t
  | t :: ts => t ++ ' ' :: spaceJoin ts

theorem isWordChar_of_start (c : Char) (h : isWordStart c = true) :
    isWordChar c = true := by
  simp [isWordChar, h]

theorem takeWord_fst_mem (l : List Char) : ∀ c ∈ (takeWord l).1, isWordChar c = true := by
  induction l with
  | nil => simp [takeWord]
  | cons a rest ih =>
    by_cases h : isWordChar a = true
    · simp only [takeWord, h, if_true]
      intro c hc
      rcases List.mem_cons.mp hc with rfl | hc2
      · exact h
      · exact ih c hc2
    · simp [takeWord, h]

theorem takeWord_cons_word (d : Char) (rest : List Char) (hd : isWordChar d = true) :
    takeWord (d :: rest) = (d :: (takeWord rest).1, (takeWord rest).2) := by
  simp [takeWord, hd]

theorem findTokens_cons_pos {c d : Char} (rest : List Char)
    (hg : (isWordStart c && isWordChar d) = true) :
    findTokens (c :: d :: rest) =
      (c :: (takeWord (d :: rest)).1) :: findTokens (takeWord (d :: rest)).2 := by
  conv_lhs => rw [findTokens]
  rw [if_pos hg]

theorem findTokens_cons_neg {c d : Char} (rest : List Char)
    (hg : ¬ ((isWordStart c && isWordChar d) = true)) :
    findTokens (c :: d :: rest) = findTokens (d :: rest) := by
  conv_lhs => rw [findTokens]
  rw [if_neg hg]

theorem findTokens_shaped (s : List Char) : ∀ t ∈ findTokens s, Shaped t := by
  induction s using findTokens.induct with
  | case1 => simp [findTokens]
  | case2 a => simp [findTokens]
  | case3 c d rest hg ih =>
    obtain ⟨hc, hd⟩ := Bool.and_eq_true_iff.mp hg
    intro t ht
    rw [findTokens_cons_pos rest hg] at ht
    rcases List.mem_cons.mp ht with rfl | ht2
    · refine ⟨?_, ?_, ?_⟩
      · rw [takeWord_cons_word d rest hd]
        simp
      · simpa using hc
      · intro e he
        rcases List.mem_cons.mp he with rfl | he2
        · exact isWordChar_of_start e hc
        · exact takeWord_fst_mem (d :: rest) e he2
    · exact ih t ht2
  | case4 c d rest hg ih =>
    intro t ht
    rw [findTokens_cons_neg rest hg] at ht
    exact ih t ht

theorem findTokens_skip (c : Char) (x : List Char) (h : isWordStart c = false) :
    findTokens (c :: x) = findTokens x := by
  cases x with
  | nil => simp [findTokens]
  | cons d rest => exact findTokens_cons_neg rest (by simp [h])

theorem takeWord_stop (r : List Char)
    (hr : r = [] ∨ ∃ b r2, r = b :: r2 ∧ isWordChar b = false) :
    takeWord r = ([], r) := by
  rcases hr with rfl | ⟨b, r2, rfl, hb⟩
  · simp [takeWord]
  · simp [takeWord, hb]

theorem takeWord_all_append (l r : List Char) (hl : ∀ c ∈ l, isWordChar c = true)
    (hr : r = [] ∨ ∃ b r2, r = b :: r2 ∧ isWordChar b = false) :
    takeWord (l ++ r) = (l, r) := by
  induction l with
  | nil => simpa using takeWord_stop r hr
  | cons a l ih =>
    have ha : isWordChar a = true := hl a (List.mem_cons_self a l)
    have ih2 := ih (fun c hc => hl c (List.mem_cons_of_mem a hc))
    simp [takeWord, ha, ih2]

theorem findTokens_token_sep (t r : List Char) (ht : Shaped t)
    (hr : r = [] ∨ ∃ b r2, r = b :: r2 ∧ isWordChar b = false) :
    findTokens (t ++ r) = t :: findTokens r := by
  obtain ⟨hlen, hhead, hmem⟩ := ht
  cases t with
  | nil => simp at hlen
  | cons c t1 =>
    cases t1 with
    | nil => simp at hlen
    | cons d ds =>
      have hc : isWordStart c = true := by simpa using hhead
      have hd : isWordChar d = true := hmem d (by simp)
      have htw : takeWord ((d :: ds) ++ r) = (d :: ds, r) := by
        refine takeWord_all_append (d :: ds) r ?_ hr
        intro e he
        rcases List.mem_cons.mp he with rfl | he2
        · exact hd
        · exact hmem e (by simp [he2])
      have hg : (isWordStart c && isWordChar d) = true := by simp [hc, hd]
      have hsplit : (c :: d :: ds) ++ r = c :: d :: (ds ++ r) := by simp
      rw [hsplit, findTokens_cons_pos (ds ++ r) hg]
      have hjoin : d :: (ds ++ r) = (d :: ds) ++ r := by simp
      rw [hjoin, htw]

theorem findTokens_spaceJoin (ts : List (List Char)) (h : ∀ t ∈ ts, Shaped t) :
    findTokens (spaceJoin ts) = ts := by
  induction ts with
  | nil => simp [spaceJoin, findTokens]
  | cons t ts ih =>
    cases ts with
    | nil =>
      have h1 := findTokens_token_sep t [] (h t (by simp)) (Or.inl rfl)
      simpa [spaceJoin, findTokens] using h1
    | cons t2 ts2 =>
      have hsep : (' ' :: spaceJoin (t2 :: ts2)) = [] ∨
          ∃ b r2, (' ' :: spaceJoin (t2 :: ts2)) = b :: r2 ∧ isWordChar b = false :=
        Or.inr ⟨' ', spaceJoin (t2 :: ts2), rfl, by decide⟩
      have h1 := findTokens_token_sep t (' ' :: spaceJoin (t2 :: ts2)) (h t (by simp)) hsep
      have h2 : findTokens (' ' :: spaceJoin (t2 :: ts2)) = findTokens (spaceJoin (t2 :: ts2)) :=
        findTokens_skip ' ' _ (by decide)
      have ih2 := ih (fun u hu => h u (by simp [hu]))
      calc findTokens (spaceJoin (t :: t2 :: ts2))
          = findTokens (t ++ ' ' :: spaceJoin (t2 :: ts2)) := by rw [spaceJoin]; simp
        _ = t :: findTokens (' ' :: spaceJoin (t2 :: ts2)) := h1
        _ = t :: findTokens (spaceJoin (t2 :: ts2)) := by rw [h2]
        _ = t :: t2 :: ts2 := by rw [ih2]

theorem storeGet_insert (docs : Store) (u : Uri) (t : List Char) :
    storeGet (storeInsert docs u t) u = some t := by
  simp [storeGet, storeInsert]

theorem applyUpserts_append (docs : Store) (ups1 ups2 : List (Uri × List Char)) :
    applyUpserts docs (ups1 ++ ups2) = applyUpserts (applyUpserts docs ups1) ups2 := by
  induction ups1 generalizing docs with
  | nil => rfl
  | cons p rest ih =>
    cases p with
    | mk u t => simpa [applyUpserts] using ih (storeInsert docs u t)

/-- C1: the claim says a completion request naming a document absent from
the store returns a successful empty candidate list.  The code instead
hits the `expect("Document not found")` panic inside `load_all_words`: on
an empty store both the response construction and the whole dispatch loop
abort with the document-not-found panic rather than answering with an
empty list. -/
theorem c1_absent_doc_panics :
    create_completion_response 1 (RawParams.completionParams "file:///missing" 0 0) [] =
      .error .docNotFound ∧
    serve [] [InMessage.request 1 "textDocument/completion"
        (RawParams.completionParams "file:///missing" 0 0)] =
      .error .docNotFound :=
  ⟨rfl, rfl⟩

/-- C2: every token the tokenizer emits, from any input text, has length
at least two, starts with an ASCII letter or underscore, and consists only
of ASCII letters, ASCII digits, and underscores. -/
theorem c2_token_shape (s t : List Char) (h : t ∈ findTokens s) :
    2 ≤ t.length ∧ isWordStart t.headI = true ∧ ∀ c ∈ t, isWordChar c = true :=
  findTokens_shaped s t h

/-- C2 witness: the token `ab` extracted from the text `ab!` has the
stated shape. -/
theorem c2_token_shape_witness :
    ['a', 'b'] ∈ findTokens ['a', 'b', '!'] ∧
    (2 ≤ (['a', 'b'] : List Char).length ∧
      isWordStart (['a', 'b'] : List Char).headI = true ∧
      ∀ c ∈ (['a', 'b'] : List Char), isWordChar c = true) := by
  have hm : ['a', 'b'] ∈ findTokens ['a', 'b', '!'] := by
    simp [findTokens, takeWord, isWordStart, isWordChar]
  exact ⟨hm, c2_token_shape ['a', 'b', '!'] ['a', 'b'] hm⟩

/-- C3 counterexample: the dispatch loop does not stop at an exit
notification — a document-open notification arriving after an exit
notification is still processed, its text visibly entering the store,
contradicting the claim that no message after an exit notification is
processed. -/
theorem c3_post_exit_processed :
    serve [] [InMessage.notif "exit" RawParams.empty,
      InMessage.notif "textDocument/didOpen" (RawParams.didOpenParams "file:///a" ['a', 'b'])] =
      .ok ([("file:///a", ['a', 'b'])], []) ∧
    storeGet [("file:///a", ['a', 'b'])] "file:///a" = some ['a', 'b'] :=
  ⟨rfl, rfl⟩

/-- C3 amended: receiving an exit notification is a no-op for the
dispatch loop — it mutates nothing and sends nothing, and the loop simply
continues with the remaining messages of its inbound stream (loop
termination comes from the stream ending, which the external transport
provides by closing the channel after exit, not from this arm). -/
theorem c3_exit_noop (docs : Store) (p : RawParams) (rest : List InMessage) :
    serve docs (InMessage.notif "exit" p :: rest) = serve docs rest := by
  have hh : handleMessage docs (InMessage.notif "exit" p) = .ok (docs, []) := rfl
  cases hs : serve docs rest with
  | error e => simp [serve, hh, hs]
  | ok pr =>
    cases pr with
    | mk df outs => simp [serve, hh, hs]

/-- C4: a completion request, document-open notification, or
document-change notification whose parameters fail to parse aborts the
dispatch loop with the propagated parse failure, regardless of what
messages follow — the failure is not logged and skipped. -/
theorem c4_malformed_params_abort (docs : Store) (rest : List InMessage) (id : Nat)
    (p q r : RawParams)
    (hp : parseCompletionParams p = none)
    (hq : parseDidOpenParams q = none)
    (hr : parseDidChangeParams r = none) :
    serve docs (InMessage.request id "textDocument/completion" p :: rest) =
      .error .parseFailure ∧
    serve docs (InMessage.notif "textDocument/didOpen" q :: rest) = .error .parseFailure ∧
    serve docs (InMessage.notif "textDocument/didChange" r :: rest) = .error .parseFailure := by
  refine ⟨?_, ?_, ?_⟩ <;>
    simp [serve, handleMessage, create_completion_response, hp, hq, hr]

/-- C4 witness: a payload matching none of the expected shapes aborts the
loop in all three arms. -/
theorem c4_malformed_params_abort_witness :
    parseCompletionParams .malformed = none ∧
    parseDidOpenParams .malformed = none ∧
    parseDidChangeParams .malformed = none ∧
    (serve [] [InMessage.request 1 "textDocument/completion" .malformed] =
        .error .parseFailure ∧
      serve [] [InMessage.notif "textDocument/didOpen" .malformed] = .error .parseFailure ∧
      serve [] [InMessage.notif "textDocument/didChange" .malformed] = .error .parseFailure) :=
  ⟨rfl, rfl, rfl,
    c4_malformed_params_abort [] [] 1 .malformed .malformed .malformed rfl rfl rfl⟩

/-- C5: after any sequence of upserts whose last element writes text `t`
to identity `u`, a get on `u` returns exactly `t` — the last write wins,
replacing the stored record wholesale, never merging. -/
theorem c5_last_write_wins (docs : Store) (ups : List (Uri × List Char)) (u : Uri)
    (t : List Char) :
    storeGet (applyUpserts docs (ups ++ [(u, t)])) u = some t := by
  rw [applyUpserts_append]
  exact storeGet_insert (applyUpserts docs ups) u t

/-- C6: opening a document with text `fn main() { let test = 1; }` and
then requesting completion for the same identity yields a successful
response whose candidate label set is exactly fn, main, let, test. -/
theorem c6_scenario_a :
    ∃ ws : List (List Char),
      serve [] [InMessage.notif "textDocument/didOpen"
          (RawParams.didOpenParams "file:///d" ("fn main() \x7b let test = 1; \x7d".data)),
        InMessage.request 7 "textDocument/completion"
          (RawParams.completionParams "file:///d" 0 0)] =
        .ok ([("file:///d", "fn main() \x7b let test = 1; \x7d".data)],
          [OutMessage.completionResponse 7 ws]) ∧
      ws.toFinset = {"fn".data, "main".data, "let".data, "test".data} := by
  refine ⟨["fn".data, "main".data, "let".data, "test".data], ?_, by decide⟩
  have htok : findTokens ("fn main() \x7b let test = 1; \x7d".data) =
      ["fn".data, "main".data, "let".data, "test".data] := by
    simp [findTokens, takeWord, isWordStart, isWordChar]
  have h1 : handleMessage [] (InMessage.notif "textDocument/didOpen"
      (RawParams.didOpenParams "file:///d" ("fn main() \x7b let test = 1; \x7d".data))) =
      .ok ([("file:///d", "fn main() \x7b let test = 1; \x7d".data)], []) := rfl
  have hload : load_all_words "file:///d"
      [("file:///d", "fn main() \x7b let test = 1; \x7d".data)] =
      .ok ["fn".data, "main".data, "let".data, "test".data] := by
    have hg : storeGet [("file:///d", "fn main() \x7b let test = 1; \x7d".data)]
        "file:///d" = some ("fn main() \x7b let test = 1; \x7d".data) := rfl
    simp [load_all_words, hg, htok]
  have h2 : handleMessage [("file:///d", "fn main() \x7b let test = 1; \x7d".data)]
      (InMessage.request 7 "textDocument/completion"
        (RawParams.completionParams "file:///d" 0 0)) =
      .ok ([("file:///d", "fn main() \x7b let test = 1; \x7d".data)],
        [OutMessage.completionResponse 7
          ["fn".data, "main".data, "let".data, "test".data]]) := by
    simp [handleMessage, create_completion_response, parseCompletionParams, hload]
  simp [serve, h1, h2]

/-- C7: tokenizing the space-joined concatenation of the distinct tokens
extracted from any text yields the same token set as tokenizing the
original text. -/
theorem c7_tokenize_idem (s : List Char) :
    (findTokens (spaceJoin (findTokens s).dedup)).toFinset = (findTokens s).toFinset := by
  have hsh : ∀ t ∈ (findTokens s).dedup, Shaped t := fun t ht =>
    findTokens_shaped s t (List.mem_dedup.mp ht)
  rw [findTokens_spaceJoin (findTokens s).dedup hsh]
  ext a
  simp [List.mem_toFinset, List.mem_dedup]

/-- C8: two completion requests that agree on the document identity and
the store but differ in the cursor position are handled identically — the
position parameter is parsed but never influences the response, so the
candidate label sets coincide. -/
theorem c8_position_unused (docs : Store) (id : Nat) (u : Uri)
    (l1 c1 l2 c2 : Nat) :
    handleMessage docs (InMessage.request id "textDocument/completion"
        (RawParams.completionParams u l1 c1)) =
      handleMessage docs (InMessage.request id "textDocument/completion"
        (RawParams.completionParams u l2 c2)) := rfl

/-- C9: any successfully handled message that is not a document-open or
document-change notification leaves the store unchanged — shutdown,
completion (a pure read), exit, close and other unrecognized methods, and
response messages never add, remove, or modify an entry. -/
theorem c9_frame (docs : Store) (m : InMessage) (d2 : Store) (outs : List OutMessage)
    (hm : isDocSync m = false)
    (h : handleMessage docs m = .ok (d2, outs)) : d2 = docs := by
  cases m with
  | request id method params =>
    simp only [handleMessage] at h
    by_cases h1 : (method == "shutdown") = true
    · rw [if_pos h1] at h
      simp at h
      exact h.1.symm
    · rw [if_neg h1] at h
      by_cases h2 : (method == "textDocument/completion") = true
      · rw [if_pos h2] at h
        cases hc : create_completion_response id params docs with
        | error e => rw [hc] at h; simp at h
        | ok out =>
          rw [hc] at h
          simp at h
          exact h.1.symm
      · rw [if_neg h2] at h
        simp at h
        exact h.1.symm
  | notif method params =>
    have hm2 : ¬ method = "textDocument/didOpen" ∧ ¬ method = "textDocument/didChange" := by
      simpa [isDocSync] using hm
    simp only [handleMessage] at h
    by_cases h1 : (method == "exit") = true
    · rw [if_pos h1] at h
      simp at h
      exact h.1.symm
    · rw [if_neg h1] at h
      rw [if_neg (by simp [hm2.2])] at h
      rw [if_neg (by simp [hm2.1])] at h
      simp at h
      exact h.1.symm
  | responseMsg =>
    simp [handleMessage] at h
    exact h.1.symm

/-- C9 witness: a shutdown request is handled successfully, is not a
document-sync notification, and leaves the empty store empty. -/
theorem c9_frame_witness :
    isDocSync (InMessage.request 1 "shutdown" RawParams.empty) = false ∧
    handleMessage [] (InMessage.request 1 "shutdown" RawParams.empty) =
      .ok ([], [OutMessage.shutdownAck 1]) ∧
    ([] : Store) = [] :=
  ⟨rfl, rfl,
    c9_frame [] (InMessage.request 1 "shutdown" RawParams.empty) []
      [OutMessage.shutdownAck 1] rfl rfl⟩

/-- C10: a document-change notification with a non-empty change list
stores exactly the text of the first element, ignoring all later
elements; with an empty change list the unguarded `content_changes[0]`
index aborts the handler, so totality needs the non-empty precondition. -/
theorem c10_first_change (docs : Store) (u : Uri) (c : List Char)
    (cs : List (List Char)) :
    handleMessage docs (InMessage.notif "textDocument/didChange"
        (RawParams.didChangeParams u (c :: cs))) = .ok (storeInsert docs u c, []) ∧
    handleMessage docs (InMessage.notif "textDocument/didChange"
        (RawParams.didChangeParams u [])) = .error .indexOutOfBounds :=
  ⟨rfl, rfl⟩

end LspWord
